import Mathlib

/-!
# Verification of the ElementaryCAVisualizer CA computation core

Shallow embedding of the elementary-cellular-automaton engine
(`ca-engine.js`), the worker-inlined engine copy (`ca-worker.js`) and the
client-side worker manager (`ca-worker-manager.js`), together with proofs
of the specified properties.

Modelling conventions:
* `Uint8Array` buffers become `List Nat` (each entry a byte value 0..255);
  an out-of-range typed-array read yields `undefined`, which written back
  into a `Uint8Array` stores 0, so reads are `List.getD _ _ 0` and writes
  are `List.set` (which, like a typed-array write, ignores out-of-range
  indices).
* JS numbers that are in practice non-negative integers become `Nat`;
  positions that can go negative (the `x - 1` neighbor index) become `Int`,
  and the JS `%` operator (truncated remainder) becomes `Int.tmod`.
* `Math.random() < density` outcomes are supplied as an explicit oracle
  `Nat → Bool`, one boolean per cell position.
-/

/-- State of one `CAEngine` instance (class `CAEngine`, ca-engine.js).
The fields mirror the JS instance fields; all buffers keep their JS
lengths (`state` has `width * height` entries, `currentRow`, `nextRow`
have `width` entries, `ruleLookup` has 8 entries). -/
structure CAEngine where
  rule : Nat
  width : Nat
  height : Nat
  currentGeneration : Nat
  state : List Nat
  currentRow : List Nat
  nextRow : List Nat
  ruleLookup : List Nat
  deriving Repr, DecidableEq

namespace CAEngine

/-- `_buildRuleLookup`: `ruleLookup[i] = (rule >> i) & 1` for `i` in 0..7. -/
def buildRuleLookup (rule : Nat) : List Nat :=
  (List.range 8).map (fun i => (rule >>> i) &&& 1)

/-- `_getCell(buffer, x)`: toroidal wrapping
`wrappedX = ((x % width) + width) % width` with the JS truncated `%`,
then read `buffer[wrappedX]`. -/
def getCell (buffer : List Nat) (width : Nat) (x : Int) : Nat :=
  let wrappedX := (Int.tmod x width + width).tmod width
  buffer.getD wrappedX.toNat 0

/-- The loop `for (i = 0; i < n; i++) dst[off + i] = row[i]`
writing a row of `n` cells into a flat buffer at offset `off`. -/
def writeRow (dst : List Nat) (off : Nat) (row : List Nat) (n : Nat) : List Nat :=
  (List.range n).foldl (fun acc i => acc.set (off + i) (row.getD i 0)) dst

/-- Body of the `for (x...)` loop in `step()`: neighbors of `x` in the
current row with toroidal wrap, composed into
`(left << 2) | (center << 1) | right`, then `ruleLookup[neighborhood]`. -/
def stepCell (ruleLookup row : List Nat) (width x : Nat) : Nat :=
  let left := getCell row width ((x : Int) - 1)
  let center := getCell row width (x : Int)
  let right := getCell row width ((x : Int) + 1)
  let neighborhood := (left <<< 2) ||| (center <<< 1) ||| right
  ruleLookup.getD neighborhood 0

/-- `step()`: copy the current row out of the circular buffer, compute the
next generation cell by cell, increment the generation counter, and write
the new row back into the circular buffer. -/
def step (e : CAEngine) : CAEngine :=
  let currentRowIndex := e.currentGeneration % e.height
  let currentRowOffset := currentRowIndex * e.width
  let currentRow := (List.range e.width).map (fun i => e.state.getD (currentRowOffset + i) 0)
  let nextRow := (List.range e.width).map (fun x => stepCell e.ruleLookup currentRow e.width x)
  let gen := e.currentGeneration + 1
  let nextRowIndex := gen % e.height
  let nextRowOffset := nextRowIndex * e.width
  { e with
      currentGeneration := gen
      currentRow := currentRow
      nextRow := nextRow
      state := writeRow e.state nextRowOffset nextRow e.width }

/-- `getState()`: returns the state buffer (in the heap model below this
is a live reference; here, its current contents). -/
def getState (e : CAEngine) : List Nat := e.state

/-- `getGeneration()`. -/
def getGeneration (e : CAEngine) : Nat := e.currentGeneration

/-- `getRow(rowIndex)`: fresh copy of one row of the state buffer. -/
def getRow (e : CAEngine) (rowIndex : Nat) : List Nat :=
  (List.range e.width).map (fun i => e.state.getD (rowIndex * e.width + i) 0)

/-- Initial-condition patterns accepted by `setInitialCondition`:
`"single"`, `"random"` (with the `Math.random() < density` outcomes given
by an oracle), a custom `Uint8Array`, or any unknown pattern value. -/
inductive Pattern where
  | single
  | random (outcome : Nat → Bool)
  | custom (row : List Nat)
  | unknown
  deriving Inhabited

/-- `setInitialCondition(pattern)`: clear the state buffer, reset the
generation counter to 0, build the initial row for the given pattern
(custom rows are truncated/padded to `width`, unknown patterns fall back
to a single center cell), and write it as row 0. -/
def setInitialCondition (e : CAEngine) (pattern : Pattern) : CAEngine :=
  let state1 := List.replicate (e.state.length) 0
  let initialRow : List Nat :=
    match pattern with
    | .single =>
        let centerX := e.width / 2
        (List.replicate e.width 0).set centerX 1
    | .random outcome =>
        (List.range e.width).map (fun x => if outcome x then 1 else 0)
    | .custom row =>
        let copyLength := min row.length e.width
        (List.range e.width).map (fun i => if i < copyLength then row.getD i 0 else 0)
    | .unknown =>
        let centerX := e.width / 2
        (List.replicate e.width 0).set centerX 1
  { e with
      currentGeneration := 0
      state := writeRow state1 0 initialRow e.width
      currentRow := initialRow }

/-- The guard of the `console.warn` in `setRule` (invalid rule number). -/
def setRuleWarns (rule : Nat) : Bool := 255 < rule

/-- `setRule(rule)`: clamp an out-of-range rule to [0,255]
(`Math.max(0, Math.min(255, rule))`; the `rule < 0` half of the guard is
vacuous for a natural number) and rebuild the lookup table. -/
def setRule (e : CAEngine) (rule : Nat) : CAEngine :=
  let rule' := if 255 < rule then max 0 (min 255 rule) else rule
  { e with rule := rule', ruleLookup := buildRuleLookup rule' }

/-- `getRule()`. -/
def getRule (e : CAEngine) : Nat := e.rule

/-- The `new CAEngine(rule, width, height)` constructor: stores `rule`
as given (no clamping happens here), allocates zeroed buffers, builds the
rule lookup table and seeds the `"single"` initial condition. -/
def create (rule width height : Nat) : CAEngine :=
  let e0 : CAEngine :=
    { rule := rule
      width := width
      height := height
      currentGeneration := 0
      state := List.replicate (width * height) 0
      currentRow := List.replicate width 0
      nextRow := List.replicate width 0
      ruleLookup := buildRuleLookup rule }
  setInitialCondition e0 .single

/-- `generate(steps)`: `for (i = 0; i < steps; i++) step()`. -/
def generate (e : CAEngine) (steps : Nat) : CAEngine :=
  (List.range steps).foldl (fun acc _ => acc.step) e

/-- `reset(newRule)`: optional `setRule`, then reseed with `"single"`. -/
def reset (e : CAEngine) (newRule : Option Nat) : CAEngine :=
  let e1 := match newRule with
    | some r => e.setRule r
    | none => e
  setInitialCondition e1 .single

end CAEngine

/-!
## Worker-inlined engine copy (ca-worker.js)

`ca-worker.js` inlines its own copy of the `CAEngine` class. The
definitions below are transcribed from that copy (which is textually the
same engine code), over the same state type.
-/

namespace WorkerCAEngine

/-- `_buildRuleLookup` of the worker-inlined engine copy. -/
def buildRuleLookup (rule : Nat) : List Nat :=
  (List.range 8).map (fun i => (rule >>> i) &&& 1)

/-- `_getCell` of the worker-inlined engine copy. -/
def getCell (buffer : List Nat) (width : Nat) (x : Int) : Nat :=
  let wrappedX := (Int.tmod x width + width).tmod width
  buffer.getD wrappedX.toNat 0

/-- Row-write loop of the worker-inlined engine copy. -/
def writeRow (dst : List Nat) (off : Nat) (row : List Nat) (n : Nat) : List Nat :=
  (List.range n).foldl (fun acc i => acc.set (off + i) (row.getD i 0)) dst

/-- Body of the `for (x...)` loop of the worker-inlined `step()`. -/
def stepCell (ruleLookup row : List Nat) (width x : Nat) : Nat :=
  let left := getCell row width ((x : Int) - 1)
  let center := getCell row width (x : Int)
  let right := getCell row width ((x : Int) + 1)
  let neighborhood := (left <<< 2) ||| (center <<< 1) ||| right
  ruleLookup.getD neighborhood 0

/-- `step()` of the worker-inlined engine copy. -/
def step (e : CAEngine) : CAEngine :=
  let currentRowIndex := e.currentGeneration % e.height
  let currentRowOffset := currentRowIndex * e.width
  let currentRow := (List.range e.width).map (fun i => e.state.getD (currentRowOffset + i) 0)
  let nextRow := (List.range e.width).map (fun x => stepCell e.ruleLookup currentRow e.width x)
  let gen := e.currentGeneration + 1
  let nextRowIndex := gen % e.height
  let nextRowOffset := nextRowIndex * e.width
  { e with
      currentGeneration := gen
      currentRow := currentRow
      nextRow := nextRow
      state := writeRow e.state nextRowOffset nextRow e.width }

/-- `generate(steps)` of the worker-inlined engine copy. -/
def generate (e : CAEngine) (steps : Nat) : CAEngine :=
  (List.range steps).foldl (fun acc _ => WorkerCAEngine.step acc) e

end WorkerCAEngine

/-!
## Worker host message handlers (ca-worker.js)
-/

/-- Payload of a `{type: 'state', state, generation}` worker response. -/
structure StateResponse where
  state : List Nat
  generation : Nat
  deriving Repr, DecidableEq

/-- The coercion `data.steps || 1` applied to the `steps` field of a
`'step'` message: a missing (`undefined`) or zero `steps` — both falsy —
yields 1. -/
def stepsOrOne (steps : Option Nat) : Nat :=
  match steps with
  | none => 1
  | some 0 => 1
  | some n => n

/-- `handleStep(data, id)` on an initialized worker host: coerce
`data.steps || 1`, run `engine.generate(steps)`, then post an independent
copy (`new Uint8Array(state)`) of the engine state together with
`engine.getGeneration()`. Returns the updated hosted engine and the
posted response. -/
def handleStep (engine : CAEngine) (steps : Option Nat) : CAEngine × StateResponse :=
  let n := stepsOrOne steps
  let engine' := WorkerCAEngine.generate engine n
  let stateCopy := engine'.getState
  (engine', { state := stateCopy, generation := engine'.getGeneration })

/-!
## Client-side worker manager (ca-worker-manager.js)

Only the manager state relevant to the claims is modelled: the table of
pending message handlers (a JS `Map` keyed by message id, kept here as an
insertion-ordered list of ids), the id counter, the cached generation and
the initialization flag.
-/

/-- One promise-rejection event produced by the manager: the pending
message id and the error message passed to `reject`. -/
structure RejectEvent where
  id : Nat
  message : String
  deriving Repr, DecidableEq

/-- State of a `CAWorkerManager` instance. -/
structure CAWorkerManager where
  hasWorker : Bool
  pendingIds : List Nat
  nextMessageId : Nat
  currentGeneration : Nat
  isInitialized : Bool
  deriving Repr, DecidableEq

namespace CAWorkerManager

/-- `_sendMessage`: allocate a fresh id, register a pending handler for
it, post the message. (The message payload itself is not needed for the
claims; only the pending-table bookkeeping is modelled.) -/
def sendMessage (m : CAWorkerManager) : CAWorkerManager :=
  { m with
      pendingIds := m.pendingIds ++ [m.nextMessageId]
      nextMessageId := m.nextMessageId + 1 }

/-- `terminate()`: discard the worker, reject every currently-pending
promise with `new Error('Worker terminated')`, clear the pending table
and drop the initialized flag. Returns the new manager state and the
rejection events in table-iteration order. -/
def terminate (m : CAWorkerManager) : CAWorkerManager × List RejectEvent :=
  let events := m.pendingIds.map (fun id => { id := id, message := "Worker terminated" })
  ({ m with hasWorker := false, pendingIds := [], isInitialized := false }, events)

/-- The manager's `step(steps)` round-trip, composed with the worker
host's `handleStep`: guard on `isInitialized`, send `{type:'step', steps}`
to the host, and on the `'state'` response cache `response.generation`.
Returns the new manager, the hosted engine after the call, and the
response the caller's promise resolves with. -/
def step (m : CAWorkerManager) (engine : CAEngine) (steps : Nat) :
    Except String (CAWorkerManager × CAEngine × StateResponse) :=
  if !m.isInitialized then
    .error "Worker not initialized. Call init() first."
  else
    let (engine', response) := handleStep engine (some steps)
    .ok ({ m with currentGeneration := response.generation }, engine', response)

end CAWorkerManager

/-!
## Heap model for reference semantics (getState aliasing, C10)

JS `Uint8Array` objects are heap references. To state which operations
return live references into the engine and which return fresh copies, a
tiny explicit heap is used: buffers live in a `List (List Nat)` and are
addressed by index. `new Uint8Array(...)` appends a fresh buffer at the
end of the heap.
-/

/-- Read the buffer a reference points to. -/
def heapRead (h : List (List Nat)) (p : Nat) : List Nat := h.getD p []

/-- Write value `v` at index `i` of the buffer referenced by `p`
(a caller doing `arr[i] = v` on a reference it holds). -/
def heapWrite (h : List (List Nat)) (p i v : Nat) : List (List Nat) :=
  h.set p ((heapRead h p).set i v)

/-- An engine whose `state` field is a heap reference (as the JS object
really is), rather than an inlined value. -/
structure EngineRef where
  rule : Nat
  width : Nat
  height : Nat
  currentGeneration : Nat
  stateRef : Nat
  deriving Repr, DecidableEq

namespace EngineRef

/-- View a referenced engine as a pure `CAEngine` value by dereferencing
its state buffer. (`currentRow` and `nextRow` are fully overwritten by
`step` before being read, so their contents are irrelevant; `ruleLookup`
is the cache `_buildRuleLookup` maintains for the current rule.) -/
def toEngine (h : List (List Nat)) (e : EngineRef) : CAEngine :=
  { rule := e.rule
    width := e.width
    height := e.height
    currentGeneration := e.currentGeneration
    state := heapRead h e.stateRef
    currentRow := List.replicate e.width 0
    nextRow := List.replicate e.width 0
    ruleLookup := CAEngine.buildRuleLookup e.rule }

/-- `getState()` under reference semantics: `return this.state;` hands
the caller the engine's own buffer reference — no copy is made. -/
def getState (e : EngineRef) : Nat := e.stateRef

/-- `step()` under reference semantics: run the pure step on the
dereferenced buffer and store the result back through `stateRef`. -/
def step (h : List (List Nat)) (e : EngineRef) : List (List Nat) × EngineRef :=
  let e' := (e.toEngine h).step
  (h.set e.stateRef e'.state, { e with currentGeneration := e'.currentGeneration })

end EngineRef

/-- `handleGetState(data, id)` of the worker host, under reference
semantics: read the engine's buffer through `engine.getState()`, allocate
an independent copy (`new Uint8Array(state)` — a fresh heap cell), and
post the copy's reference with the generation. Returns the extended heap,
the posted buffer reference and the generation. -/
def handleGetState (h : List (List Nat)) (e : EngineRef) :
    List (List Nat) × Nat × Nat :=
  let state := e.getState
  let stateCopy := heapRead h state
  (h ++ [stateCopy], h.length, e.currentGeneration)

/-!
## Helper lemmas
-/

/-- `getD` after `set` at the written index. -/
theorem getD_set_self {α : Type} (l : List α) (i : Nat) (v d : α) (h : i < l.length) :
    (l.set i v).getD i d = v := by
  rw [List.getD_eq_getElem _ _ (by simpa), List.getElem_set_self]

/-- `getD` after `set` at a different index. -/
theorem getD_set_ne {α : Type} (l : List α) (i j : Nat) (v d : α) (h : i ≠ j) :
    (l.set i v).getD j d = l.getD j d := by
  rcases Nat.lt_or_ge j l.length with hj | hj
  · rw [List.getD_eq_getElem _ _ (by simpa), List.getElem_set_ne h, List.getD_eq_getElem _ _ hj]
  · rw [List.getD_eq_default _ _ (by simpa), List.getD_eq_default _ _ hj]

/-- `getD` on a `map` over `List.range`. -/
theorem getD_map_range (f : Nat → Nat) (n i : Nat) (h : i < n) :
    ((List.range n).map f).getD i 0 = f i := by
  rw [List.getD_eq_getElem _ _ (by simpa), List.getElem_map, List.getElem_range]

/-- Unfolding one iteration of the row-write loop. -/
theorem writeRow_succ (s : List Nat) (off : Nat) (row : List Nat) (n : Nat) :
    CAEngine.writeRow s off row (n + 1)
      = (CAEngine.writeRow s off row n).set (off + n) (row.getD n 0) := by
  unfold CAEngine.writeRow
  rw [List.range_succ, List.foldl_append]
  rfl

/-- The row-write loop preserves the buffer length. -/
theorem writeRow_length (s : List Nat) (off : Nat) (row : List Nat) (n : Nat) :
    (CAEngine.writeRow s off row n).length = s.length := by
  induction n with
  | zero => rfl
  | succ n ih => rw [writeRow_succ, List.length_set, ih]

/-- Reading back a cell of a freshly written row. -/
theorem writeRow_getD (s : List Nat) (off : Nat) (row : List Nat) (n x : Nat)
    (hx : x < n) (hlen : off + n ≤ s.length) :
    (CAEngine.writeRow s off row n).getD (off + x) 0 = row.getD x 0 := by
  induction n with
  | zero => omega
  | succ n ih =>
    rw [writeRow_succ]
    rcases Nat.lt_or_ge x n with h | h
    · rw [getD_set_ne _ _ _ _ _ (by omega)]
      exact ih h (by omega)
    · have hxn : x = n := by omega
      subst hxn
      exact getD_set_self _ _ _ _ (by rw [writeRow_length]; omega)

/-- Reading a heap cell just written. -/
theorem heapRead_set_self (h : List (List Nat)) (p : Nat) (b : List Nat)
    (hp : p < h.length) : heapRead (h.set p b) p = b :=
  getD_set_self h p b [] hp

/-- Reading a heap cell other than the one written. -/
theorem heapRead_set_ne (h : List (List Nat)) (p q : Nat) (b : List Nat)
    (hne : p ≠ q) : heapRead (h.set p b) q = heapRead h q :=
  getD_set_ne h p q b [] hne

/-- `heapWrite` preserves the heap size. -/
theorem heapWrite_length (h : List (List Nat)) (p i v : Nat) :
    (heapWrite h p i v).length = h.length :=
  List.length_set h p _

/-- Reading back the buffer just mutated through a reference. -/
theorem heapRead_heapWrite_self (h : List (List Nat)) (p i v : Nat)
    (hp : p < h.length) : heapRead (heapWrite h p i v) p = (heapRead h p).set i v :=
  heapRead_set_self h p _ hp

/-- Mutation through one reference leaves other buffers unchanged. -/
theorem heapRead_heapWrite_ne (h : List (List Nat)) (p q i v : Nat)
    (hne : p ≠ q) : heapRead (heapWrite h p i v) q = heapRead h q :=
  heapRead_set_ne h p q _ hne

/-- The truncated remainder is congruent to the Euclidean remainder. -/
theorem tmod_emod (a b : Int) : a.tmod b % b = a % b := by
  rw [Int.tmod_def, Int.sub_emod, Int.mul_emod_right, sub_zero,
    Int.emod_emod_of_dvd _ dvd_rfl]

/-- Lower bound on the truncated remainder for a positive modulus. -/
theorem neg_lt_tmod (x W : Int) (hW : 0 < W) : -W < x.tmod W := by
  rcases le_or_lt 0 x with hx | hx
  · have := Int.tmod_nonneg W hx
    omega
  · have h1 : (-x).tmod W < W := Int.tmod_lt_of_pos (-x) hW
    have h2 : (-x).tmod W = -(x.tmod W) := by
      rw [Int.tmod_def, Int.tmod_def, Int.neg_tdiv]; ring
    omega

/-- The JS double-`%` wrap `((x % W) + W) % W` (truncated remainders)
equals the mathematical (Euclidean) remainder. -/
theorem jsWrap_eq_emod (x W : Int) (hW : 0 < W) :
    (x.tmod W + W).tmod W = x % W := by
  have hlow : -W < x.tmod W := neg_lt_tmod x W hW
  have hnn : 0 ≤ x.tmod W + W := by omega
  rw [Int.tmod_eq_emod hnn (le_of_lt hW)]
  have h1 : (x.tmod W + W) % W = x.tmod W % W := by
    have h2 := Int.add_mul_emod_self_left (x.tmod W) W 1
    rw [mul_one] at h2
    exact h2
  rw [h1, tmod_emod]

/-- `_getCell` computes the Euclidean-wrapped read. -/
theorem getCell_eq_emod (buffer : List Nat) (W : Nat) (x : Int) (hW : 0 < W) :
    CAEngine.getCell buffer W x = buffer.getD ((x % (W : Int)).toNat) 0 := by
  unfold CAEngine.getCell
  rw [jsWrap_eq_emod x W (by exact_mod_cast hW)]

/-- One more `generate` iteration is one more `step` (ca-engine copy). -/
theorem generate_succ (e : CAEngine) (n : Nat) :
    e.generate (n + 1) = (e.generate n).step := by
  unfold CAEngine.generate
  rw [List.range_succ, List.foldl_append]
  rfl

/-- One more `generate` iteration is one more `step` (worker copy). -/
theorem workerGenerate_succ (e : CAEngine) (n : Nat) :
    WorkerCAEngine.generate e (n + 1) = WorkerCAEngine.step (WorkerCAEngine.generate e n) := by
  unfold WorkerCAEngine.generate
  rw [List.range_succ, List.foldl_append]
  rfl

/-- `generate` adds exactly its argument to the generation counter. -/
theorem generate_currentGeneration (e : CAEngine) (n : Nat) :
    (e.generate n).currentGeneration = e.currentGeneration + n := by
  induction n with
  | zero => rfl
  | succ n ih => rw [generate_succ]; simp [CAEngine.step, ih]; omega

/-!
## Binary-cell invariant machinery
-/

/-- Every entry of the buffer is 0 or 1. -/
def BinaryBuf (l : List Nat) : Prop := ∀ c ∈ l, c = 0 ∨ c = 1

instance (l : List Nat) : Decidable (BinaryBuf l) :=
  inferInstanceAs (Decidable (∀ c ∈ l, c = 0 ∨ c = 1))

/-- The public engine operations an external caller can perform after
construction, as a reified type (used to quantify over arbitrary call
sequences). -/
inductive EngineOp where
  | opStep
  | opGenerate (steps : Nat)
  | opSetRule (rule : Nat)
  | opSetInitialCondition (pattern : CAEngine.Pattern)
  | opReset (newRule : Option Nat)

/-- Apply one public operation to the engine. -/
def applyOp (e : CAEngine) : EngineOp → CAEngine
  | .opStep => e.step
  | .opGenerate n => e.generate n
  | .opSetRule r => e.setRule r
  | .opSetInitialCondition p => e.setInitialCondition p
  | .opReset r => e.reset r

/-- An initial-condition pattern whose externally supplied custom row (if
any) contains only 0/1 cells. -/
def BinaryPattern : CAEngine.Pattern → Prop
  | .custom row => BinaryBuf row
  | _ => True

/-- An operation whose inputs keep cells binary: any custom row it
supplies is itself binary. -/
def BinaryOp : EngineOp → Prop
  | .opSetInitialCondition p => BinaryPattern p
  | _ => True

instance (p : CAEngine.Pattern) : Decidable (BinaryPattern p) := by
  unfold BinaryPattern
  cases p <;> infer_instance

instance (op : EngineOp) : Decidable (BinaryOp op) := by
  unfold BinaryOp
  cases op <;> infer_instance

theorem binaryBuf_replicate (n : Nat) : BinaryBuf (List.replicate n 0) := by
  intro c hc
  exact Or.inl (List.eq_of_mem_replicate hc)

theorem binaryBuf_set (l : List Nat) (i v : Nat) (hl : BinaryBuf l)
    (hv : v = 0 ∨ v = 1) : BinaryBuf (l.set i v) := by
  intro c hc
  rcases List.mem_or_eq_of_mem_set hc with h | h
  · exact hl c h
  · subst h; exact hv

theorem binaryBuf_getD (l : List Nat) (i : Nat) (hl : BinaryBuf l) :
    l.getD i 0 = 0 ∨ l.getD i 0 = 1 := by
  rcases Nat.lt_or_ge i l.length with h | h
  · rw [List.getD_eq_getElem _ _ h]
    exact hl _ (List.getElem_mem h)
  · rw [List.getD_eq_default _ _ h]
    exact Or.inl rfl

theorem binaryBuf_buildRuleLookup (r : Nat) : BinaryBuf (CAEngine.buildRuleLookup r) := by
  intro c hc
  unfold CAEngine.buildRuleLookup at hc
  rcases List.mem_map.mp hc with ⟨i, _, hi⟩
  rw [← hi, Nat.and_one_is_mod]
  omega

theorem binaryBuf_writeRow (s : List Nat) (off : Nat) (row : List Nat) (n : Nat)
    (hs : BinaryBuf s) (hrow : BinaryBuf row) :
    BinaryBuf (CAEngine.writeRow s off row n) := by
  induction n with
  | zero => exact hs
  | succ n ih =>
    rw [writeRow_succ]
    exact binaryBuf_set _ _ _ ih (binaryBuf_getD _ _ hrow)

theorem binaryBuf_map_range (f : Nat → Nat) (n : Nat)
    (hf : ∀ i, f i = 0 ∨ f i = 1) : BinaryBuf ((List.range n).map f) := by
  intro c hc
  rcases List.mem_map.mp hc with ⟨i, _, hi⟩
  rw [← hi]
  exact hf i

/-- The reachable-state invariant: the state buffer and the rule lookup
table hold only binary cells. -/
def BinaryInv (e : CAEngine) : Prop :=
  BinaryBuf e.state ∧ BinaryBuf e.ruleLookup

theorem binaryInv_step (e : CAEngine) (he : BinaryInv e) : BinaryInv e.step := by
  obtain ⟨hs, hl⟩ := he
  refine ⟨?_, hl⟩
  unfold CAEngine.step
  exact binaryBuf_writeRow _ _ _ _ hs
    (binaryBuf_map_range _ _ (fun x => binaryBuf_getD _ _ hl))

theorem binaryInv_generate (e : CAEngine) (n : Nat) (he : BinaryInv e) :
    BinaryInv (e.generate n) := by
  induction n with
  | zero => exact he
  | succ n ih => rw [generate_succ]; exact binaryInv_step _ ih

theorem binaryInv_setRule (e : CAEngine) (r : Nat) (he : BinaryInv e) :
    BinaryInv (e.setRule r) :=
  ⟨he.1, binaryBuf_buildRuleLookup _⟩

theorem binaryBuf_initialRow (e : CAEngine) (p : CAEngine.Pattern) (hp : BinaryPattern p) :
    BinaryBuf (match p with
      | .single => (List.replicate e.width 0).set (e.width / 2) 1
      | .random outcome => (List.range e.width).map (fun x => if outcome x then 1 else 0)
      | .custom row =>
          (List.range e.width).map
            (fun i => if i < min row.length e.width then row.getD i 0 else 0)
      | .unknown => (List.replicate e.width 0).set (e.width / 2) 1) := by
  cases p with
  | single => exact binaryBuf_set _ _ _ (binaryBuf_replicate _) (Or.inr rfl)
  | random outcome =>
      refine binaryBuf_map_range _ _ (fun i => ?_)
      by_cases h : outcome i <;> simp [h]
  | custom row =>
      refine binaryBuf_map_range _ _ (fun i => ?_)
      by_cases h : i < min row.length e.width
      · rw [if_pos h]
        exact binaryBuf_getD _ _ hp
      · rw [if_neg h]
        exact Or.inl rfl
  | unknown => exact binaryBuf_set _ _ _ (binaryBuf_replicate _) (Or.inr rfl)

theorem binaryInv_setInitialCondition (e : CAEngine) (p : CAEngine.Pattern)
    (he : BinaryInv e) (hp : BinaryPattern p) :
    BinaryInv (e.setInitialCondition p) := by
  refine ⟨?_, he.2⟩
  have hrow := binaryBuf_initialRow e p hp
  unfold CAEngine.setInitialCondition
  cases p with
  | single => exact binaryBuf_writeRow _ _ _ _ (binaryBuf_replicate _) hrow
  | random outcome => exact binaryBuf_writeRow _ _ _ _ (binaryBuf_replicate _) hrow
  | custom row => exact binaryBuf_writeRow _ _ _ _ (binaryBuf_replicate _) hrow
  | unknown => exact binaryBuf_writeRow _ _ _ _ (binaryBuf_replicate _) hrow

theorem binaryInv_reset (e : CAEngine) (r : Option Nat) (he : BinaryInv e) :
    BinaryInv (e.reset r) := by
  unfold CAEngine.reset
  cases r with
  | none => exact binaryInv_setInitialCondition _ _ he trivial
  | some r =>
      exact binaryInv_setInitialCondition _ _ (binaryInv_setRule _ _ he) trivial

theorem binaryInv_create (r w h : Nat) : BinaryInv (CAEngine.create r w h) := by
  unfold CAEngine.create
  refine binaryInv_setInitialCondition _ _ ⟨binaryBuf_replicate _, binaryBuf_buildRuleLookup _⟩ trivial

theorem binaryInv_applyOp (e : CAEngine) (op : EngineOp)
    (he : BinaryInv e) (hop : BinaryOp op) : BinaryInv (applyOp e op) := by
  cases op with
  | opStep => exact binaryInv_step _ he
  | opGenerate n => exact binaryInv_generate _ _ he
  | opSetRule r => exact binaryInv_setRule _ _ he
  | opSetInitialCondition p => exact binaryInv_setInitialCondition _ _ he hop
  | opReset r => exact binaryInv_reset _ _ he

theorem binaryInv_foldl (ops : List EngineOp) (e : CAEngine)
    (he : BinaryInv e) (hops : ∀ op ∈ ops, BinaryOp op) :
    BinaryInv (ops.foldl applyOp e) := by
  induction ops generalizing e with
  | nil => exact he
  | cons op ops ih =>
      exact ih _ (binaryInv_applyOp _ _ he (hops op (List.mem_cons_self op ops)))
        (fun o ho => hops o (List.mem_cons_of_mem _ ho))

/-!
## Claim theorems
-/

/-- C1: For a `CAEngine` with rule 30 and width 7 seeded with the
`"single"` pattern, row 0 is `0001000` and after one `step()` the newly
written row is `0011100` (with `ruleTable = [0,1,1,1,1,0,0,0]`); in
general, `step()` writes at every position `x < width` the value
`ruleTable[(left << 2) | (center << 1) | right]` over the toroidally
wrapped neighbors of the current row. -/
theorem rule30_step_correct (e : CAEngine) (x : Nat)
    (hlen : e.state.length = e.width * e.height) (hh : 0 < e.height) (hx : x < e.width) :
    ((CAEngine.create 30 7 7).getRow 0 = [0, 0, 0, 1, 0, 0, 0]
      ∧ (CAEngine.create 30 7 7).step.getRow 1 = [0, 0, 1, 1, 1, 0, 0]
      ∧ (CAEngine.create 30 7 7).ruleLookup = [0, 1, 1, 1, 1, 0, 0, 0])
    ∧ e.step.state.getD (((e.currentGeneration + 1) % e.height) * e.width + x) 0
        = e.ruleLookup.getD
            (((CAEngine.getCell (e.getRow (e.currentGeneration % e.height)) e.width ((x : Int) - 1)) <<< 2)
              ||| ((CAEngine.getCell (e.getRow (e.currentGeneration % e.height)) e.width (x : Int)) <<< 1)
              ||| CAEngine.getCell (e.getRow (e.currentGeneration % e.height)) e.width ((x : Int) + 1)) 0 := by
  refine ⟨⟨by decide, by decide, by decide⟩, ?_⟩
  have hoff : ((e.currentGeneration + 1) % e.height) * e.width + e.width ≤ e.state.length := by
    have hk : (e.currentGeneration + 1) % e.height < e.height := Nat.mod_lt _ hh
    have h1 : ((e.currentGeneration + 1) % e.height + 1) * e.width ≤ e.height * e.width :=
      Nat.mul_le_mul_right _ hk
    rw [Nat.succ_mul] at h1
    rw [hlen, Nat.mul_comm e.width e.height]
    exact h1
  show (CAEngine.writeRow e.state _ _ e.width).getD _ 0 = _
  rw [writeRow_getD _ _ _ _ _ hx hoff, getD_map_range _ _ _ hx]
  rfl

/-- Closed witness for C1, at the rule-30 width-7 engine and `x = 2`. -/
theorem rule30_step_correct_witness :
    (CAEngine.create 30 7 7).step.state.getD ((1 % 7) * 7 + 2) 0
      = (CAEngine.create 30 7 7).ruleLookup.getD
          (((CAEngine.getCell ((CAEngine.create 30 7 7).getRow (0 % 7)) 7 ((2 : Int) - 1)) <<< 2)
            ||| ((CAEngine.getCell ((CAEngine.create 30 7 7).getRow (0 % 7)) 7 (2 : Int)) <<< 1)
            ||| CAEngine.getCell ((CAEngine.create 30 7 7).getRow (0 % 7)) 7 ((2 : Int) + 1)) 0 :=
  (rule30_step_correct (CAEngine.create 30 7 7) 2 (by decide) (by decide) (by decide)).2

/-- C2: for every rule `r` in [0,255], after construction or `setRule(r)`
every entry `i` in [0,7] of the lookup table equals `(r >> i) & 1`, and
`setRule` recomputes the entire table synchronously (the post-state of
`setRule` already carries the table of its new rule, so any subsequent
step reads the recomputed table). -/
theorem ruleTable_correct (r w h i : Nat) (e : CAEngine) (hr : r ≤ 255) (hi : i < 8) :
    (CAEngine.create r w h).ruleLookup.getD i 0 = (r >>> i) &&& 1
    ∧ (e.setRule r).ruleLookup.getD i 0 = (r >>> i) &&& 1
    ∧ (e.setRule r).rule = r
    ∧ (e.setRule r).ruleLookup = CAEngine.buildRuleLookup (e.setRule r).rule := by
  have hno : ¬(255 < r) := by omega
  refine ⟨?_, ?_, ?_, ?_⟩
  · show (CAEngine.buildRuleLookup r).getD i 0 = _
    unfold CAEngine.buildRuleLookup
    exact getD_map_range _ _ _ hi
  · simp only [CAEngine.setRule, if_neg hno]
    unfold CAEngine.buildRuleLookup
    exact getD_map_range _ _ _ hi
  · simp [CAEngine.setRule, hno]
  · simp [CAEngine.setRule, hno]

/-- Closed witness for C2, at rule 30 and entry 4. -/
theorem ruleTable_correct_witness :
    (CAEngine.create 30 7 7).ruleLookup.getD 4 0 = (30 >>> 4) &&& 1 :=
  (ruleTable_correct 30 7 7 4 (CAEngine.create 30 7 7) (by decide) (by decide)).1

/-- C3: for every row buffer of positive width `W` and every integer
position `x`, `_getCell` returns the cell at index
`((x mod W) + W) mod W` (the Euclidean remainder of `x` by `W`); in
particular, lookup at `-1` reads the cell at `W - 1` and lookup at `W`
reads the cell at `0`. -/
theorem toroidal_wrap_correct (buffer : List Nat) (W : Nat) (x : Int) (hW : 0 < W) :
    CAEngine.getCell buffer W x = buffer.getD ((x % (W : Int)).toNat) 0
    ∧ CAEngine.getCell buffer W (-1) = buffer.getD (W - 1) 0
    ∧ CAEngine.getCell buffer W (W : Int) = buffer.getD 0 0 := by
  have hWi : (0 : Int) < (W : Int) := by exact_mod_cast hW
  refine ⟨getCell_eq_emod _ _ _ hW, ?_, ?_⟩
  · rw [getCell_eq_emod _ _ _ hW]
    congr 1
    have h2 : (-1 : Int) = ((W : Int) - 1) + (W : Int) * (-1) := by ring
    rw [h2, Int.add_mul_emod_self_left,
      Int.emod_eq_of_lt (by omega) (by omega)]
    omega
  · rw [getCell_eq_emod _ _ _ hW]
    congr 1
    rw [Int.emod_self]
    rfl

/-- Closed witness for C3, at buffer `[5,6,7]`, width 3, position `-1`. -/
theorem toroidal_wrap_correct_witness :
    CAEngine.getCell [5, 6, 7] 3 (-1) = [5, 6, 7].getD (3 - 1) 0 :=
  (toroidal_wrap_correct [5, 6, 7] 3 (-1) (by decide)).2.1

/-- C4 counterexample: constructing an engine with rule 300 stores the
rule 300 itself — the constructor performs no clamping, so the stored
rule is out of [0,255], contradicting the claim. -/
theorem rule_clamp_cex :
    (CAEngine.create 300 8 8).rule = 300 ∧ ¬((CAEngine.create 300 8 8).rule ≤ 255) :=
  ⟨by decide, by decide⟩

/-- C4 (amended): `setRule` clamps any out-of-range rule into [0,255]
(300 becomes 255) with a warning and never raises an error, but the
constructor stores the supplied rule unchanged (no clamping at
construction). -/
theorem rule_clamp_amended (e : CAEngine) (r w h : Nat) :
    (e.setRule r).rule ≤ 255
    ∧ (e.setRule 300).rule = 255
    ∧ CAEngine.setRuleWarns 300 = true
    ∧ (CAEngine.create r w h).rule = r := by
  refine ⟨?_, ?_, rfl, rfl⟩
  · unfold CAEngine.setRule
    by_cases hr : 255 < r
    · simp [hr]
    · simp [hr]; omega
  · rfl

/-- C5 counterexample: seeding with an externally supplied custom row
containing the byte 2 stores the non-binary value 2 in the state buffer,
contradicting the binary cell invariant as claimed. -/
theorem binary_invariant_cex :
    ((CAEngine.create 30 3 3).setInitialCondition (.custom [2, 0, 0])).state.getD 0 0 = 2
    ∧ ¬ BinaryBuf ((CAEngine.create 30 3 3).setInitialCondition (.custom [2, 0, 0])).state :=
  ⟨by decide, by decide⟩

/-- C5 (amended): after any sequence of engine operations (construction,
`setInitialCondition`, `setRule`, `step`, `generate`, `reset`), every
cell of the state buffer is 0 or 1, provided every externally supplied
custom row itself contains only 0/1 cells. -/
theorem binary_invariant_amended (r w h : Nat) (ops : List EngineOp)
    (hops : ∀ op ∈ ops, BinaryOp op) :
    BinaryBuf ((ops.foldl applyOp (CAEngine.create r w h)).state) :=
  (binaryInv_foldl ops _ (binaryInv_create r w h) hops).1

/-- Closed witness for C5 (amended): a custom binary seed followed by a
step leaves the buffer binary. -/
theorem binary_invariant_amended_witness :
    BinaryBuf
      (([EngineOp.opSetInitialCondition (.custom [1, 0, 1]), EngineOp.opStep].foldl
          applyOp (CAEngine.create 30 3 3)).state) :=
  binary_invariant_amended 30 3 3 _ (by decide)

/-- C6: every `step()` increases the generation counter by exactly 1,
`generate(steps)` increases it by exactly `steps` (`generate(0)` is a
no-op leaving the whole engine unchanged), and `setInitialCondition` or
`reset` sets the counter back to 0. -/
theorem generation_monotonic (e : CAEngine) (n : Nat) (p : CAEngine.Pattern) (r : Option Nat) :
    e.step.currentGeneration = e.currentGeneration + 1
    ∧ (e.generate n).currentGeneration = e.currentGeneration + n
    ∧ e.generate 0 = e
    ∧ (e.setInitialCondition p).currentGeneration = 0
    ∧ (e.reset r).currentGeneration = 0 :=
  ⟨rfl, generate_currentGeneration e n, rfl, rfl, rfl⟩

/-- C7: one step computed through the worker boundary (a `'step'` message
with `steps = 1` dispatched to the worker's inlined engine) yields a
state buffer byte-for-byte equal to calling the bare `CAEngine.step()`
directly on the same engine state — the ca-engine copy and the
worker-inlined copy compute identical transitions, and the boundary
introduces no computational drift. -/
theorem worker_boundary_no_drift (e : CAEngine) :
    WorkerCAEngine.step e = e.step
    ∧ (handleStep e (some 1)).2.state = e.step.state
    ∧ (handleStep e (some 1)).2.generation = e.step.currentGeneration
    ∧ (handleStep e (some 1)).1 = e.step :=
  ⟨rfl, rfl, rfl, rfl⟩

/-- C8: calling the manager's `terminate()` while N requests are pending
produces exactly one `'Worker terminated'` rejection for each pending
message id and leaves the pending-handler table with zero entries. -/
theorem terminate_rejects_pending (m : CAWorkerManager) (N : Nat)
    (hN : m.pendingIds.length = N) :
    m.terminate.2.length = N
    ∧ m.terminate.1.pendingIds = []
    ∧ m.terminate.2 = m.pendingIds.map (fun i => { id := i, message := "Worker terminated" }) := by
  refine ⟨?_, rfl, rfl⟩
  simp [CAWorkerManager.terminate, hN]

/-- Closed witness for C8, at a manager with three pending requests. -/
theorem terminate_rejects_pending_witness :
    ({ hasWorker := true, pendingIds := [0, 1, 2], nextMessageId := 3,
       currentGeneration := 0, isInitialized := true } : CAWorkerManager).terminate.2.length = 3 :=
  (terminate_rejects_pending
    { hasWorker := true, pendingIds := [0, 1, 2], nextMessageId := 3,
      currentGeneration := 0, isInitialized := true } 3 rfl).1

/-- C9: processing a `'step'` message whose `steps` field is 0 (or
missing) computes exactly one generation, because the host coerces
`data.steps || 1`; a caller invoking the manager's `step(0)` on an
initialized manager therefore observes the generation counter advance by
1, unlike the engine's own `generate(0)` which is a no-op. -/
theorem step_zero_coerced_to_one (m : CAWorkerManager) (e : CAEngine)
    (hm : m.isInitialized = true) :
    stepsOrOne (some 0) = 1
    ∧ stepsOrOne none = 1
    ∧ (handleStep e (some 0)).2.generation = e.currentGeneration + 1
    ∧ (handleStep e none).2.generation = e.currentGeneration + 1
    ∧ (m.step e 0).toOption.map (fun r => r.2.2.generation) = some (e.currentGeneration + 1)
    ∧ e.generate 0 = e := by
  refine ⟨rfl, rfl, rfl, rfl, ?_, rfl⟩
  simp [CAWorkerManager.step, hm, handleStep, Except.toOption]
  rfl

/-- Closed witness for C9, at an initialized manager and the rule-30
width-7 engine. -/
theorem step_zero_coerced_to_one_witness :
    (({ hasWorker := true, pendingIds := [], nextMessageId := 1,
        currentGeneration := 0, isInitialized := true } : CAWorkerManager).step
          (CAEngine.create 30 7 7) 0).toOption.map (fun r => r.2.2.generation)
      = some ((CAEngine.create 30 7 7).currentGeneration + 1) :=
  (step_zero_coerced_to_one _ (CAEngine.create 30 7 7) rfl).2.2.2.2.1

/-- C10: the bare same-context `getState()` returns the engine's internal
state buffer itself (the very reference, not a copy): writing `v` at
index `i` of the returned array and then stepping behaves exactly as
`step()` on an engine whose cell buffer holds `v` at index `i`; by
contrast, the worker host's `handleGetState` sends a freshly allocated
independent copy, so mutating that copy leaves the engine's subsequent
evolution unchanged. -/
theorem getState_live_reference (h : List (List Nat)) (e : EngineRef) (i v : Nat)
    (hp : e.stateRef < h.length) :
    e.getState = e.stateRef
    ∧ heapRead (EngineRef.step (heapWrite h e.getState i v) e).1 e.stateRef
        = ({ e.toEngine h with state := (heapRead h e.stateRef).set i v } : CAEngine).step.state
    ∧ (handleGetState h e).2.1 ≠ e.stateRef
    ∧ heapRead
          (EngineRef.step (heapWrite (handleGetState h e).1 (handleGetState h e).2.1 i v) e).1
          e.stateRef
        = heapRead (EngineRef.step (handleGetState h e).1 e).1 e.stateRef := by
  refine ⟨rfl, ?_, ?_, ?_⟩
  · have hstep : (EngineRef.step (heapWrite h e.getState i v) e).1
        = (heapWrite h e.getState i v).set e.stateRef
            ((e.toEngine (heapWrite h e.getState i v)).step.state) := rfl
    rw [hstep,
      heapRead_set_self _ _ _ (by rw [heapWrite_length]; exact hp)]
    have h2 : e.toEngine (heapWrite h e.getState i v)
        = { e.toEngine h with state := (heapRead h e.stateRef).set i v } := by
      unfold EngineRef.toEngine
      simp only [EngineRef.getState]
      rw [heapRead_heapWrite_self h e.stateRef i v hp]
    rw [h2]
  · show h.length ≠ e.stateRef
    omega
  · have hcopy : (handleGetState h e).1 = h ++ [heapRead h e.stateRef] := rfl
    have hfresh : (handleGetState h e).2.1 = h.length := rfl
    rw [hcopy, hfresh]
    have hlen1 : (h ++ [heapRead h e.stateRef]).length = h.length + 1 := by
      simp
    have h3 : heapRead (heapWrite (h ++ [heapRead h e.stateRef]) h.length i v) e.stateRef
        = heapRead (h ++ [heapRead h e.stateRef]) e.stateRef :=
      heapRead_heapWrite_ne _ _ _ _ _ (by omega)
    have h4 : e.toEngine (heapWrite (h ++ [heapRead h e.stateRef]) h.length i v)
        = e.toEngine (h ++ [heapRead h e.stateRef]) := by
      unfold EngineRef.toEngine
      rw [h3]
    have hstepL : (EngineRef.step (heapWrite (h ++ [heapRead h e.stateRef]) h.length i v) e).1
        = (heapWrite (h ++ [heapRead h e.stateRef]) h.length i v).set e.stateRef
            ((e.toEngine (heapWrite (h ++ [heapRead h e.stateRef]) h.length i v)).step.state) := rfl
    have hstepR : (EngineRef.step (h ++ [heapRead h e.stateRef]) e).1
        = (h ++ [heapRead h e.stateRef]).set e.stateRef
            ((e.toEngine (h ++ [heapRead h e.stateRef])).step.state) := rfl
    rw [hstepL, hstepR,
      heapRead_set_self _ _ _ (by rw [heapWrite_length, hlen1]; omega),
      heapRead_set_self _ _ _ (by rw [hlen1]; omega),
      h4]

/-- Closed witness for C10, at a one-buffer heap. -/
theorem getState_live_reference_witness :
    (handleGetState [[0, 0, 0]] ⟨30, 3, 3, 0, 0⟩).2.1 ≠ (⟨30, 3, 3, 0, 0⟩ : EngineRef).stateRef :=
  (getState_live_reference [[0, 0, 0]] ⟨30, 3, 3, 0, 0⟩ 1 1 (by decide)).2.2.1
